import Mathlib

/-!
Verification of the GDP / trade-balance correlation dashboard
(`src/gdp_trade_balance_correlation/main.py`).

The analytical core of the script works on pandas DataFrames whose rows are
observations `(Country, Date, value)`.  We embed a DataFrame of observations
as a `List Obs`, the result of the inner merge on `["Country", "Date"]`
(main.py lines 223-225) as a `List JoinedRecord`, the per-country
`groupby("Country")` slice as `groupFor`, and the Pearson / OLS arithmetic of
pandas `.corr()` and `statsmodels.OLS` in exact rational (resp. real)
arithmetic.  The fetch loop `fetch_and_prepare_data` (lines 37-47) is embedded
with explicit `Except` error propagation mirroring Python exceptions.
-/

namespace GdpTradeBalance

/-- One row of a fetched-and-prepared DataFrame: an observation of one
indicator for one country at one period (main.py lines 42-45 tag each fetched
row with its `Country`; `Date` is the original period, embedded as an
integer; the float value is embedded as a rational). -/
structure Obs where
  country : String
  date : Int
  value : ℚ
deriving DecidableEq, Repr

/-- One row of `correlation_df = pd.merge(df_gdp_all, df_tb_all,
on=["Country", "Date"], ...)` (main.py lines 223-225): the country, the date,
the GDP-growth value `x` and the trade-balance value `y`. -/
structure JoinedRecord where
  country : String
  date : Int
  x : ℚ
  y : ℚ
deriving DecidableEq, Repr

/-- The merge key comparison: two observations agree on `(Country, Date)`. -/
def keyMatch (a b : Obs) : Bool :=
  a.country == b.country && a.date == b.date

/-- Build a joined row from a left row `a` and a matching right row `b`:
`x` comes from the left frame, `y` from the right. -/
def mkJoined (a b : Obs) : JoinedRecord :=
  ⟨a.country, a.date, a.value, b.value⟩

/-- `pd.merge(A, B, on=["Country", "Date"])` with the default `how="inner"`:
every pair of a left row and a right row sharing the key produces one output
row. -/
def innerJoin (A B : List Obs) : List JoinedRecord :=
  A.flatMap fun a => (B.filter fun b => keyMatch a b).map fun b => mkJoined a b

/-- Swap the roles of the two value columns of a joined row (what calling
the merge with the two frames exchanged does to a matching pair). -/
def flipJoined (r : JoinedRecord) : JoinedRecord :=
  ⟨r.country, r.date, r.y, r.x⟩

/-- The `(x, y)` columns of the group `correlation_df[correlation_df["Country"]
== c]` (main.py line 275; the same grouping underlies
`correlation_df.groupby("Country")` on line 227). -/
def groupFor (j : List JoinedRecord) (c : String) : List (ℚ × ℚ) :=
  (j.filter fun r => r.country == c).map fun r => (r.x, r.y)

/-- The countries appearing in the joined frame: the index of the pandas
`groupby("Country")` result (each country appears once). -/
def correlationsIndex (j : List JoinedRecord) : List String :=
  (j.map fun r => r.country).dedup

/-! ### Statistics of one country group

`l : List (ℚ × ℚ)` is the `(x, y)` column pair of one country's joined
records.  pandas `.corr()` computes the Pearson coefficient
`Σ(x-x̄)(y-ȳ) / (√Σ(x-x̄)² · √Σ(y-ȳ)²)`; `statsmodels.OLS` with an added
constant solves the normal equations
`[[n, Σx], [Σx, Σx²]]·β = [Σy, Σxy]`. -/

/-- The sample size of a group, as a rational. -/
def count (l : List (ℚ × ℚ)) : ℚ := l.length

/-- Column sum `Σ x`. -/
def sumX (l : List (ℚ × ℚ)) : ℚ := (l.map fun p => p.1).sum

/-- Column sum `Σ y`. -/
def sumY (l : List (ℚ × ℚ)) : ℚ := (l.map fun p => p.2).sum

/-- Moment `Σ x·x`. -/
def sumXX (l : List (ℚ × ℚ)) : ℚ := (l.map fun p => p.1 * p.1).sum

/-- Moment `Σ y·y`. -/
def sumYY (l : List (ℚ × ℚ)) : ℚ := (l.map fun p => p.2 * p.2).sum

/-- Moment `Σ x·y`. -/
def sumXY (l : List (ℚ × ℚ)) : ℚ := (l.map fun p => p.1 * p.2).sum

/-- Sample mean of the `x` column. -/
def meanX (l : List (ℚ × ℚ)) : ℚ := sumX l / count l

/-- Sample mean of the `y` column. -/
def meanY (l : List (ℚ × ℚ)) : ℚ := sumY l / count l

/-- Centered second moment `Σ (x - x̄)²` (the `x` variance up to the `1/(n-1)`
factor, which cancels in the Pearson ratio). -/
def sxx (l : List (ℚ × ℚ)) : ℚ := (l.map fun p => (p.1 - meanX l) ^ 2).sum

/-- Centered second moment `Σ (y - ȳ)²`. -/
def syy (l : List (ℚ × ℚ)) : ℚ := (l.map fun p => (p.2 - meanY l) ^ 2).sum

/-- Centered cross moment `Σ (x - x̄)(y - ȳ)`. -/
def sxy (l : List (ℚ × ℚ)) : ℚ :=
  (l.map fun p => (p.1 - meanX l) * (p.2 - meanY l)).sum

/-- The Pearson coefficient computed by `DataFrame.corr()` for one group:
covariance over the product of the standard deviations. -/
noncomputable def pearson (l : List (ℚ × ℚ)) : ℝ :=
  (sxy l : ℝ) / (Real.sqrt (sxx l) * Real.sqrt (syy l))

/-- The per-country coefficient extracted on main.py lines 226-243:
`correlation_df.groupby("Country")[...].corr()` followed by
`correlations.loc[country].iloc[0]`. -/
noncomputable def correlate (A B : List Obs) (c : String) : ℝ :=
  pearson (groupFor (innerJoin A B) c)

/-- The slope produced by `sm.OLS(y, sm.add_constant(X)).fit()` (main.py
lines 279-280): Cramer's rule on the normal equations. -/
def olsSlope (l : List (ℚ × ℚ)) : ℚ :=
  (count l * sumXY l - sumX l * sumY l) / (count l * sumXX l - sumX l ^ 2)

/-- The intercept of the same fit, by Cramer's rule. -/
def olsIntercept (l : List (ℚ × ℚ)) : ℚ :=
  (sumXX l * sumY l - sumX l * sumXY l) / (count l * sumXX l - sumX l ^ 2)

/-- The `(slope, intercept)` pair the code computes for one country group;
lines 274-284 run this fit unconditionally for every selected country. -/
def olsFit (l : List (ℚ × ℚ)) : ℚ × ℚ := (olsSlope l, olsIntercept l)

/-- Residual sum of squares of the fitted line. -/
def ssRes (l : List (ℚ × ℚ)) : ℚ :=
  (l.map fun p => (p.2 - (olsIntercept l + olsSlope l * p.1)) ^ 2).sum

/-- `model.rsquared` as reported by the `model.summary()` of line 284:
one minus residual over total (centered) sum of squares. -/
def rSquared (l : List (ℚ × ℚ)) : ℚ := 1 - ssRes l / syy l

/-! ### `fetch_and_prepare_data` (main.py lines 37-47)

`fetch_series` either raises `DataSourceError` (embedded as
`Except.error ()`) or returns a DataFrame of `(original_period,
original_value)` rows (embedded as a list of pairs).  The loop renames the
columns, tags each non-empty frame with its country and appends it; the final
`pd.concat(dfs)` raises `ValueError: No objects to concatenate` when `dfs`
is empty, embedded as `FetchError.emptyConcat`. -/

/-- Rows of a frame returned by `fetch_series`: `(original_period,
original_value)` pairs. -/
abbrev RawSeries := List (Int × ℚ)

/-- How `fetch_and_prepare_data` can fail: an uncaught `DataSourceError`
propagating out of `fetch_series` (line 40), or the `ValueError` raised by
`pd.concat` on an empty list of frames (line 47). -/
inductive FetchError where
  | dataSource : FetchError
  | emptyConcat : FetchError
deriving DecidableEq, Repr

/-- Lines 42-45: rename the columns and tag every row of a fetched frame
with its country. -/
def tagObs (country : String) (rows : RawSeries) : List Obs :=
  rows.map fun r => ⟨country, r.1, r.2⟩

/-- The `for country, series_code in series_dict.items()` loop of lines
39-46: fetch each series in order; an exception from `fetch_series` aborts
the whole loop at once; a non-empty frame is tagged and appended to `dfs`,
an empty frame is skipped. -/
def fetchLoop (fetchSeries : String → Except Unit RawSeries) :
    List (String × String) → Except FetchError (List (List Obs))
  | [] => Except.ok []
  | p :: rest =>
    match fetchSeries p.2 with
    | Except.error _ => Except.error FetchError.dataSource
    | Except.ok df =>
      match fetchLoop fetchSeries rest with
      | Except.error e => Except.error e
      | Except.ok dfs =>
        Except.ok (if df.isEmpty then dfs else tagObs p.1 df :: dfs)

/-- `fetch_and_prepare_data(series_dict, col_name)` (lines 37-47): run the
fetch loop, then `return pd.concat(dfs)` — which raises when `dfs` is
empty. -/
def fetchAndPrepareData (seriesDict : List (String × String))
    (fetchSeries : String → Except Unit RawSeries) :
    Except FetchError (List Obs) :=
  match fetchLoop fetchSeries seriesDict with
  | Except.error e => Except.error e
  | Except.ok dfs =>
    if dfs.isEmpty then Except.error FetchError.emptyConcat
    else Except.ok dfs.flatten

/-- The per-entity frames that survive the loop when every fetch succeeds:
entities whose fetch returned an empty frame are dropped, the rest are
tagged, in dictionary order. -/
def preparedList (seriesDict : List (String × String))
    (fetchSeries : String → Except Unit RawSeries) : List (List Obs) :=
  seriesDict.filterMap fun p =>
    match fetchSeries p.2 with
    | Except.error _ => none
    | Except.ok df => if df.isEmpty then none else some (tagObs p.1 df)

/-! ### The correlation display loop (main.py lines 239-243)

For every country the caller selected, the code does
`correlations.loc[country].iloc[0]`.  When a selected country has no joined
records, it is absent from the groupby index and `.loc` raises a
`KeyError`, embedded as the error case below. -/

/-- The pandas `KeyError` raised by `.loc` on a missing label. -/
inductive PdKeyError where
  | keyError : PdKeyError
deriving DecidableEq, Repr

/-- The `for country in selected_countries:` loop of lines 239-243: look up
each selected country in the per-country correlation series; a country with
no joined records is missing from the index and the lookup raises. -/
noncomputable def displayCorrelations (j : List JoinedRecord) :
    List String → Except PdKeyError (List (String × ℝ))
  | [] => Except.ok []
  | c :: rest =>
    if c ∈ correlationsIndex j then
      match displayCorrelations j rest with
      | Except.error e => Except.error e
      | Except.ok out => Except.ok ((c, pearson (groupFor j c)) :: out)
    else Except.error PdKeyError.keyError

/-! ### The unreachable `Sources` branch (main.py lines 334-348)

Lines 336-346 were meant to be the body of `if selected == "Sources":`
(line 335) but are indented at the same level as the `if` itself, so the
conditional has no indented suite.  We transcribe the logical source lines
following line 334 as `(line number, indentation, opens-a-block?)` triples
and model CPython's block rule: a line whose header ends in `:` must be
followed by a line of strictly greater indentation. -/

/-- A logical Python source line: its line number, its indentation in
columns, and whether it is a compound-statement header (ends in `:`). -/
structure PyLine where
  lineNo : Nat
  indent : Nat
  opensBlock : Bool
deriving DecidableEq, Repr

/-- The logical lines of main.py from line 335 to the end, transcribed from
the source (comment-only lines are not logical lines):
line 335 `if selected == "Sources":` at indent 4, header;
line 336 `st.subheader(...)` at indent 4;
line 337 `st.write(...)` at indent 4;
line 342 `st.markdown(...)` at indent 4;
line 343 `st.write(...)` at indent 4;
line 347 `if __name__ == "__main__":` at indent 0, header;
line 348 `main()` at indent 4. -/
def trailingLines : List PyLine :=
  [⟨335, 4, true⟩, ⟨336, 4, false⟩, ⟨337, 4, false⟩, ⟨342, 4, false⟩,
   ⟨343, 4, false⟩, ⟨347, 0, true⟩, ⟨348, 4, false⟩]

/-- CPython's indentation check for a run of logical lines: after a
compound-statement header, the next logical line must be indented strictly
deeper; the first violation is reported with its line number. -/
def firstIndentationError : List PyLine → Option Nat
  | a :: b :: rest =>
    if a.opensBlock && b.indent ≤ a.indent then some b.lineNo
    else firstIndentationError (b :: rest)
  | _ => none

/-- Outcome of importing the module: either it parses, or the parser rejects
it with an IndentationError at some line. -/
inductive LoadOutcome where
  | loaded : LoadOutcome
  | indentationError : Nat → LoadOutcome
deriving DecidableEq, Repr

/-- Importing main.py: the module body is parsed as a whole before any
statement runs, so a single indentation error anywhere rejects the file. -/
def importModule : LoadOutcome :=
  match firstIndentationError trailingLines with
  | some n => LoadOutcome.indentationError n
  | none => LoadOutcome.loaded

/-- `main` can run under a given menu selection only if the module was
imported successfully; parsing precedes every fetch, correlation and
regression. -/
def mainRuns (_selection : String) : Bool :=
  importModule == LoadOutcome.loaded

/-! ## Theorems -/

theorem mem_innerJoin (A B : List Obs) (r : JoinedRecord) :
    r ∈ innerJoin A B ↔
      ∃ a ∈ A, ∃ b ∈ B, keyMatch a b = true ∧ r = mkJoined a b := by
  constructor
  · intro hr
    rcases List.mem_flatMap.mp hr with ⟨a, ha, hmem⟩
    rcases List.mem_map.mp hmem with ⟨b, hb, hr'⟩
    rcases List.mem_filter.mp hb with ⟨hbB, hk⟩
    exact ⟨a, ha, b, hbB, hk, hr'.symm⟩
  · rintro ⟨a, ha, b, hb, hk, rfl⟩
    exact List.mem_flatMap.mpr ⟨a, ha,
      List.mem_map.mpr ⟨b, List.mem_filter.mpr ⟨hb, hk⟩, rfl⟩⟩

theorem keyMatch_iff (a b : Obs) :
    keyMatch a b = true ↔ a.country = b.country ∧ a.date = b.date := by
  simp [keyMatch]

/-- C5: the join used by correlation and regression is an inner join on
`(entity, date)`: a `JoinedRecord` with key `(c, d)` exists in
`innerJoin A B` if and only if an observation with that key exists in both
`A` and `B`; keys present on only one side are dropped. -/
theorem c5_inner_join_membership (A B : List Obs) (c : String) (d : Int) :
    (∃ r ∈ innerJoin A B, r.country = c ∧ r.date = d) ↔
      ((∃ a ∈ A, a.country = c ∧ a.date = d) ∧
        (∃ b ∈ B, b.country = c ∧ b.date = d)) := by
  constructor
  · rintro ⟨r, hr, hc, hd⟩
    rcases (mem_innerJoin A B r).mp hr with ⟨a, ha, b, hb, hk, rfl⟩
    rcases (keyMatch_iff a b).mp hk with ⟨hcc, hdd⟩
    refine ⟨⟨a, ha, ?_, ?_⟩, ⟨b, hb, ?_, ?_⟩⟩
    · exact hc
    · exact hd
    · exact hcc ▸ hc
    · exact hdd ▸ hd
  · rintro ⟨⟨a, ha, hac, had⟩, ⟨b, hb, hbc, hbd⟩⟩
    refine ⟨mkJoined a b, (mem_innerJoin A B _).mpr
      ⟨a, ha, b, hb, (keyMatch_iff a b).mpr ⟨?_, ?_⟩, rfl⟩, hac, had⟩
    · exact hac.trans hbc.symm
    · exact had.trans hbd.symm

/-- C10: the statements meant as the body of `if selected == "Sources":`
(line 335) are not indented under it, so the parser rejects the file with an
IndentationError at line 336, and consequently `main` cannot run — for every
menu selection, no fetch, correlation or regression is ever performed. -/
theorem c10_sources_branch_indentation_error :
    firstIndentationError trailingLines = some 336 ∧
      importModule = LoadOutcome.indentationError 336 ∧
      ∀ selection : String, mainRuns selection = false :=
  ⟨rfl, rfl, fun _ => rfl⟩

theorem fetchLoop_of_all_ok (fetchSeries : String → Except Unit RawSeries) :
    ∀ seriesDict : List (String × String),
      (∀ p ∈ seriesDict, ∃ df, fetchSeries p.2 = Except.ok df) →
      fetchLoop fetchSeries seriesDict =
        Except.ok (preparedList seriesDict fetchSeries) := by
  intro seriesDict
  induction seriesDict with
  | nil => intro _; rfl
  | cons p rest ih =>
    intro hok
    rcases hok p (List.mem_cons_self p rest) with ⟨df, hdf⟩
    have hrest := ih fun q hq => hok q (List.mem_cons_of_mem p hq)
    simp only [fetchLoop, hdf, hrest, preparedList, List.filterMap_cons]
    by_cases hemp : df.isEmpty
    · simp [hemp, preparedList]
    · simp [hemp, preparedList]

theorem fetchLoop_of_error (fetchSeries : String → Except Unit RawSeries) :
    ∀ seriesDict : List (String × String), ∀ p ∈ seriesDict,
      fetchSeries p.2 = Except.error () →
      fetchLoop fetchSeries seriesDict = Except.error FetchError.dataSource := by
  intro seriesDict
  induction seriesDict with
  | nil => intro p hp; exact absurd hp (List.not_mem_nil p)
  | cons q rest ih =>
    intro p hp herr
    rcases List.mem_cons.mp hp with rfl | hp'
    · simp only [fetchLoop, herr]
    · cases hq : fetchSeries q.2 with
      | error e => simp only [fetchLoop, hq]
      | ok df => simp only [fetchLoop, hq, ih p hp' herr]

/-- C2 counterexample: with a single entity whose fetch succeeds but returns
an empty frame, `fetch_and_prepare_data` reaches `pd.concat([])`, which
raises a `ValueError` — it does not return an empty aligned series. -/
theorem c2_all_empty_raises :
    fetchAndPrepareData [("USA", "IMF-WEO-USA")] (fun _ => Except.ok []) =
        Except.error FetchError.emptyConcat ∧
      fetchAndPrepareData [("USA", "IMF-WEO-USA")] (fun _ => Except.ok []) ≠
        Except.ok [] := by
  refine ⟨rfl, fun h => ?_⟩
  have h' : (Except.error FetchError.emptyConcat :
      Except FetchError (List Obs)) = Except.ok [] := h
  exact Except.noConfusion h'

/-- C2 (amended): when every entity's fetch succeeds, entities whose fetch
returns an empty frame are excluded and the remaining tagged frames are
concatenated in order; but when every entity's frame is empty (so no frame
survives), `fetch_and_prepare_data` raises the `pd.concat` `ValueError`
instead of returning an empty aligned series. -/
theorem c2_excludes_empty_and_concats (seriesDict : List (String × String))
    (fetchSeries : String → Except Unit RawSeries)
    (hok : ∀ p ∈ seriesDict, ∃ df, fetchSeries p.2 = Except.ok df) :
    fetchAndPrepareData seriesDict fetchSeries =
      if (preparedList seriesDict fetchSeries).isEmpty then
        Except.error FetchError.emptyConcat
      else Except.ok (preparedList seriesDict fetchSeries).flatten := by
  unfold fetchAndPrepareData
  rw [fetchLoop_of_all_ok fetchSeries seriesDict hok]

/-- C2 witness: two entities, the first fetch returns one row, the second an
empty frame; the empty one is excluded and the surviving frame is the whole
result. -/
theorem c2_excludes_empty_and_concats_witness :
    fetchAndPrepareData [("USA", "a"), ("China", "b")]
        (fun s => if s = "a" then Except.ok [(2020, 1)] else Except.ok []) =
      Except.ok [⟨"USA", 2020, 1⟩] := by
  have h := c2_excludes_empty_and_concats [("USA", "a"), ("China", "b")]
    (fun s => if s = "a" then Except.ok [(2020, 1)] else Except.ok [])
    (by
      intro p hp
      rcases List.mem_cons.mp hp with rfl | hp'
      · exact ⟨[(2020, 1)], rfl⟩
      · rcases List.mem_cons.mp hp' with rfl | hp''
        · exact ⟨[], rfl⟩
        · exact absurd hp'' (List.not_mem_nil p))
  exact h.trans rfl

/-- C3 counterexample: the first entity's fetch raises `DataSourceError`
while the second entity's fetch would succeed with one row; the whole of
`fetch_and_prepare_data` aborts with the error and the successfully
fetchable entity's observations are not in any aggregate. -/
theorem c3_error_aborts_all :
    fetchAndPrepareData [("USA", "a"), ("China", "b")]
        (fun s => if s = "a" then Except.error () else Except.ok [(2020, 1)]) =
        Except.error FetchError.dataSource ∧
      fetchAndPrepareData [("USA", "a"), ("China", "b")]
        (fun s => if s = "a" then Except.error () else Except.ok [(2020, 1)]) ≠
        Except.ok [⟨"China", 2020, 1⟩] := by
  refine ⟨rfl, fun h => ?_⟩
  have h' : (Except.error FetchError.dataSource :
      Except FetchError (List Obs)) = Except.ok [⟨"China", 2020, 1⟩] := h
  exact Except.noConfusion h'

/-- C3 (amended): a `DataSourceError` raised while fetching any entity in
the dictionary propagates out of `fetch_and_prepare_data` uncaught: the
call returns no aggregate at all, so no partial results for the other
entities are produced. -/
theorem c3_fetch_error_propagates (seriesDict : List (String × String))
    (fetchSeries : String → Except Unit RawSeries) (p : String × String)
    (hp : p ∈ seriesDict) (herr : fetchSeries p.2 = Except.error ()) :
    fetchAndPrepareData seriesDict fetchSeries =
      Except.error FetchError.dataSource := by
  unfold fetchAndPrepareData
  rw [fetchLoop_of_error fetchSeries seriesDict p hp herr]

/-- C3 witness: with the concrete dictionary of `c3_error_aborts_all`, the
failing first entity makes the whole call return the data-source error. -/
theorem c3_fetch_error_propagates_witness :
    ("USA", "a") ∈ [("USA", "a"), ("China", "b")] ∧
      fetchAndPrepareData [("USA", "a"), ("China", "b")]
        (fun s => if s = "a" then Except.error () else Except.ok [(2020, 1)]) =
        Except.error FetchError.dataSource :=
  ⟨by decide, c3_fetch_error_propagates [("USA", "a"), ("China", "b")]
    (fun s => if s = "a" then Except.error () else Except.ok [(2020, 1)])
    ("USA", "a") (by decide) rfl⟩

theorem sum_map_nonneg {α : Type} (l : List α) (f : α → ℚ)
    (h : ∀ a ∈ l, 0 ≤ f a) : 0 ≤ (l.map f).sum := by
  apply List.sum_nonneg
  intro x hx
  rcases List.mem_map.mp hx with ⟨a, ha, rfl⟩
  exact h a ha

theorem sxx_nonneg (l : List (ℚ × ℚ)) : 0 ≤ sxx l :=
  sum_map_nonneg l _ fun a _ => sq_nonneg _

theorem syy_nonneg (l : List (ℚ × ℚ)) : 0 ≤ syy l :=
  sum_map_nonneg l _ fun a _ => sq_nonneg _

theorem sum_shift_expand {α : Type} (l : List α) (f g : α → ℚ) (t : ℚ) :
    (l.map fun a => (f a - t * g a) ^ 2).sum =
      (l.map fun a => f a ^ 2).sum - 2 * t * (l.map fun a => f a * g a).sum
        + t ^ 2 * (l.map fun a => g a ^ 2).sum := by
  induction l with
  | nil => simp
  | cons a tl ih =>
    simp only [List.map_cons, List.sum_cons, ih]
    ring

theorem discriminant_nonneg_imp (F P G : ℚ) (hG : 0 ≤ G)
    (key : ∀ t : ℚ, 0 ≤ F - 2 * t * P + t ^ 2 * G) : P ^ 2 ≤ F * G := by
  rcases eq_or_lt_of_le hG with hG0 | hGpos
  · have hP : P = 0 := by
      by_contra hP0
      have hcancel : 2 * ((F + 1) / (2 * P)) * P = F + 1 := by
        field_simp
        ring
      have hk := key ((F + 1) / (2 * P))
      rw [← hG0, mul_zero, add_zero, hcancel] at hk
      linarith
    rw [hP, ← hG0, mul_zero]
    norm_num
  · have hgne : G ≠ 0 := ne_of_gt hGpos
    have hexp : F - 2 * (P / G) * P + (P / G) ^ 2 * G = (F * G - P ^ 2) / G := by
      field_simp
      ring
    have hk := key (P / G)
    rw [hexp] at hk
    have h2 : 0 ≤ F * G - P ^ 2 := by
      have h3 := mul_nonneg hk hGpos.le
      rwa [div_mul_cancel₀ _ hgne] at h3
    linarith

theorem list_cauchy_schwarz {α : Type} (l : List α) (f g : α → ℚ) :
    ((l.map fun a => f a * g a).sum) ^ 2 ≤
      ((l.map fun a => f a ^ 2).sum) * ((l.map fun a => g a ^ 2).sum) := by
  apply discriminant_nonneg_imp _ _ _
    (sum_map_nonneg l _ fun a _ => sq_nonneg (g a))
  intro t
  have h0 : 0 ≤ (l.map fun a => (f a - t * g a) ^ 2).sum :=
    sum_map_nonneg l _ fun a _ => sq_nonneg _
  rwa [sum_shift_expand l f g t] at h0

theorem sxy_sq_le (l : List (ℚ × ℚ)) : (sxy l) ^ 2 ≤ sxx l * syy l :=
  list_cauchy_schwarz l (fun p => p.1 - meanX l) (fun p => p.2 - meanY l)

/-- C6: for a country whose joined group has at least two records and
nonzero variance on both axes, the Pearson coefficient the code computes
lies in the closed interval `[-1, 1]`. -/
theorem c6_pearson_in_unit_interval (A B : List Obs) (c : String)
    (h2 : 2 ≤ (groupFor (innerJoin A B) c).length)
    (hx : sxx (groupFor (innerJoin A B) c) ≠ 0)
    (hy : syy (groupFor (innerJoin A B) c) ≠ 0) :
    -1 ≤ correlate A B c ∧ correlate A B c ≤ 1 := by
  have hxpos : 0 < sxx (groupFor (innerJoin A B) c) :=
    lt_of_le_of_ne (sxx_nonneg _) (Ne.symm hx)
  have hypos : 0 < syy (groupFor (innerJoin A B) c) :=
    lt_of_le_of_ne (syy_nonneg _) (Ne.symm hy)
  have hcs := sxy_sq_le (groupFor (innerJoin A B) c)
  have hxR : (0 : ℝ) < ((sxx (groupFor (innerJoin A B) c) : ℚ) : ℝ) := by
    exact_mod_cast hxpos
  have hyR : (0 : ℝ) < ((syy (groupFor (innerJoin A B) c) : ℚ) : ℝ) := by
    exact_mod_cast hypos
  have hcsR : ((sxy (groupFor (innerJoin A B) c) : ℚ) : ℝ) ^ 2 ≤
      ((sxx (groupFor (innerJoin A B) c) : ℚ) : ℝ) *
        ((syy (groupFor (innerJoin A B) c) : ℚ) : ℝ) := by
    exact_mod_cast hcs
  have hdpos : 0 < Real.sqrt (sxx (groupFor (innerJoin A B) c)) *
      Real.sqrt (syy (groupFor (innerJoin A B) c)) :=
    mul_pos (Real.sqrt_pos.mpr hxR) (Real.sqrt_pos.mpr hyR)
  have hdsq : (Real.sqrt (sxx (groupFor (innerJoin A B) c)) *
      Real.sqrt (syy (groupFor (innerJoin A B) c))) ^ 2 =
      ((sxx (groupFor (innerJoin A B) c) : ℚ) : ℝ) *
        ((syy (groupFor (innerJoin A B) c) : ℚ) : ℝ) := by
    rw [mul_pow, Real.sq_sqrt hxR.le, Real.sq_sqrt hyR.le]
  have hsq : ((sxy (groupFor (innerJoin A B) c) : ℚ) : ℝ) ^ 2 ≤
      (Real.sqrt (sxx (groupFor (innerJoin A B) c)) *
        Real.sqrt (syy (groupFor (innerJoin A B) c))) ^ 2 := by
    rw [hdsq]; exact hcsR
  have hhigh : ((sxy (groupFor (innerJoin A B) c) : ℚ) : ℝ) ≤
      Real.sqrt (sxx (groupFor (innerJoin A B) c)) *
        Real.sqrt (syy (groupFor (innerJoin A B) c)) := by
    nlinarith [hsq, hdpos]
  have hlow : -(Real.sqrt (sxx (groupFor (innerJoin A B) c)) *
      Real.sqrt (syy (groupFor (innerJoin A B) c))) ≤
      ((sxy (groupFor (innerJoin A B) c) : ℚ) : ℝ) := by
    nlinarith [hsq, hdpos]
  constructor
  · rw [correlate, pearson]
    rw [le_div_iff₀ hdpos]
    linarith
  · rw [correlate, pearson]
    rw [div_le_one hdpos]
    exact hhigh

/-- C6 witness: two countriesʼ worth of observations collapse to a single
USA group with two joined points, variance on both axes, and coefficient in
`[-1, 1]`. -/
theorem c6_pearson_in_unit_interval_witness :
    (2 ≤ (groupFor (innerJoin [⟨"USA", 2020, 0⟩, ⟨"USA", 2021, 1⟩]
          [⟨"USA", 2020, 0⟩, ⟨"USA", 2021, 2⟩]) "USA").length ∧
        sxx (groupFor (innerJoin [⟨"USA", 2020, 0⟩, ⟨"USA", 2021, 1⟩]
          [⟨"USA", 2020, 0⟩, ⟨"USA", 2021, 2⟩]) "USA") ≠ 0 ∧
        syy (groupFor (innerJoin [⟨"USA", 2020, 0⟩, ⟨"USA", 2021, 1⟩]
          [⟨"USA", 2020, 0⟩, ⟨"USA", 2021, 2⟩]) "USA") ≠ 0) ∧
      (-1 ≤ correlate [⟨"USA", 2020, 0⟩, ⟨"USA", 2021, 1⟩]
          [⟨"USA", 2020, 0⟩, ⟨"USA", 2021, 2⟩] "USA" ∧
        correlate [⟨"USA", 2020, 0⟩, ⟨"USA", 2021, 1⟩]
          [⟨"USA", 2020, 0⟩, ⟨"USA", 2021, 2⟩] "USA" ≤ 1) := by
  have hg : groupFor (innerJoin [⟨"USA", 2020, 0⟩, ⟨"USA", 2021, 1⟩]
      [⟨"USA", 2020, 0⟩, ⟨"USA", 2021, 2⟩]) "USA" = [(0, 0), (1, 2)] := by
    decide
  have h2 : 2 ≤ (groupFor (innerJoin [⟨"USA", 2020, 0⟩, ⟨"USA", 2021, 1⟩]
      [⟨"USA", 2020, 0⟩, ⟨"USA", 2021, 2⟩]) "USA").length := by
    rw [hg]
    decide
  have hx : sxx (groupFor (innerJoin [⟨"USA", 2020, 0⟩, ⟨"USA", 2021, 1⟩]
      [⟨"USA", 2020, 0⟩, ⟨"USA", 2021, 2⟩]) "USA") ≠ 0 := by
    rw [hg]
    norm_num [sxx, meanX, sumX, count]
  have hy : syy (groupFor (innerJoin [⟨"USA", 2020, 0⟩, ⟨"USA", 2021, 1⟩]
      [⟨"USA", 2020, 0⟩, ⟨"USA", 2021, 2⟩]) "USA") ≠ 0 := by
    rw [hg]
    norm_num [syy, meanY, sumY, count]
  exact ⟨⟨h2, hx, hy⟩,
    c6_pearson_in_unit_interval [⟨"USA", 2020, 0⟩, ⟨"USA", 2021, 1⟩]
      [⟨"USA", 2020, 0⟩, ⟨"USA", 2021, 2⟩] "USA" h2 hx hy⟩

theorem sum_sub_mul_sub {α : Type} (l : List α) (f g : α → ℚ) (c d : ℚ) :
    (l.map fun a => (f a - c) * (g a - d)).sum =
      (l.map fun a => f a * g a).sum - c * (l.map g).sum - d * (l.map f).sum
        + (l.length : ℚ) * (c * d) := by
  induction l with
  | nil => simp
  | cons a tl ih =>
    simp only [List.map_cons, List.sum_cons, List.length_cons, ih]
    push_cast
    ring

theorem count_mul_sxy (l : List (ℚ × ℚ)) (h : count l ≠ 0) :
    count l * sxy l = count l * sumXY l - sumX l * sumY l := by
  have hs := sum_sub_mul_sub l (fun p => p.1) (fun p => p.2) (meanX l) (meanY l)
  have hc : count l = (l.length : ℚ) := rfl
  have hsxy : sxy l = sumXY l - meanX l * sumY l - meanY l * sumX l
      + count l * (meanX l * meanY l) := by
    unfold sxy sumXY sumX sumY
    rw [hc]
    exact hs
  rw [hsxy, meanX, meanY]
  field_simp
  ring

theorem count_mul_sxx (l : List (ℚ × ℚ)) (h : count l ≠ 0) :
    count l * sxx l = count l * sumXX l - sumX l ^ 2 := by
  have hs := sum_sub_mul_sub l (fun p => p.1) (fun p => p.1) (meanX l) (meanX l)
  have hc : count l = (l.length : ℚ) := rfl
  have hsq : (l.map fun p => (p.1 - meanX l) ^ 2) =
      l.map fun p => (p.1 - meanX l) * (p.1 - meanX l) :=
    List.map_congr_left fun p _ => by ring
  have hsxx : sxx l = sumXX l - meanX l * sumX l - meanX l * sumX l
      + count l * (meanX l * meanX l) := by
    unfold sxx sumXX sumX
    rw [hsq, hc]
    exact hs
  rw [hsxx, meanX]
  field_simp
  ring

theorem count_mul_syy (l : List (ℚ × ℚ)) (h : count l ≠ 0) :
    count l * syy l = count l * sumYY l - sumY l ^ 2 := by
  have hs := sum_sub_mul_sub l (fun p => p.2) (fun p => p.2) (meanY l) (meanY l)
  have hc : count l = (l.length : ℚ) := rfl
  have hsq : (l.map fun p => (p.2 - meanY l) ^ 2) =
      l.map fun p => (p.2 - meanY l) * (p.2 - meanY l) :=
    List.map_congr_left fun p _ => by ring
  have hsyy : syy l = sumYY l - meanY l * sumY l - meanY l * sumY l
      + count l * (meanY l * meanY l) := by
    unfold syy sumYY sumY
    rw [hsq, hc]
    exact hs
  rw [hsyy, meanY]
  field_simp
  ring

theorem sumY_affine (u v : ℚ) (l : List (ℚ × ℚ))
    (h : ∀ p ∈ l, p.2 = u * p.1 + v) :
    sumY l = u * sumX l + v * count l := by
  induction l with
  | nil => simp [sumY, sumX, count]
  | cons q tl ih =>
    have hq := h q (List.mem_cons_self q tl)
    have htl := ih fun p hp => h p (List.mem_cons_of_mem q hp)
    unfold sumY sumX count at *
    simp only [List.map_cons, List.sum_cons, List.length_cons]
    rw [hq, htl]
    push_cast
    ring

theorem sumXY_affine (u v : ℚ) (l : List (ℚ × ℚ))
    (h : ∀ p ∈ l, p.2 = u * p.1 + v) :
    sumXY l = u * sumXX l + v * sumX l := by
  induction l with
  | nil => simp [sumXY, sumXX, sumX]
  | cons q tl ih =>
    have hq := h q (List.mem_cons_self q tl)
    have htl := ih fun p hp => h p (List.mem_cons_of_mem q hp)
    unfold sumXY sumXX sumX at *
    simp only [List.map_cons, List.sum_cons]
    rw [hq, htl]
    ring

/-- C7: under the code's OLS fit (normal equations solved by Cramer's rule,
as `sm.OLS(y, sm.add_constant(X)).fit()` does) for the joined group of one
country, the slope is the covariance over the variance and the intercept is
`ȳ - slope·x̄`; when additionally `y = 2x + 3` holds at every joined point,
the fitted slope is 2, the intercept is 3 and R² is 1. -/
theorem c7_ols_closed_form_and_noiseless (A B : List Obs) (c : String)
    (g : List (ℚ × ℚ)) (hg : g = groupFor (innerJoin A B) c)
    (hn : 3 ≤ g.length) (hx : sxx g ≠ 0) :
    (olsSlope g = sxy g / sxx g ∧
      olsIntercept g = meanY g - olsSlope g * meanX g) ∧
    ((∀ p ∈ g, p.2 = 2 * p.1 + 3) →
      olsSlope g = 2 ∧ olsIntercept g = 3 ∧ rSquared g = 1) := by
  have hcpos : (0 : ℚ) < count g := by
    unfold count
    exact_mod_cast Nat.lt_of_lt_of_le (by norm_num) hn
  have hcount : count g ≠ 0 := ne_of_gt hcpos
  have hD : count g * sumXX g - sumX g ^ 2 ≠ 0 := by
    rw [← count_mul_sxx g hcount]
    exact mul_ne_zero hcount hx
  have hslope : olsSlope g = sxy g / sxx g := by
    unfold olsSlope
    rw [show count g * sumXY g - sumX g * sumY g = count g * sxy g from
        (count_mul_sxy g hcount).symm,
      show count g * sumXX g - sumX g ^ 2 = count g * sxx g from
        (count_mul_sxx g hcount).symm,
      mul_div_mul_left _ _ hcount]
  have hint : olsIntercept g = meanY g - olsSlope g * meanX g := by
    unfold olsIntercept olsSlope meanY meanX
    field_simp
    ring
  refine ⟨⟨hslope, hint⟩, fun hlin => ?_⟩
  have hY := sumY_affine 2 3 g hlin
  have hXY := sumXY_affine 2 3 g hlin
  have hsxy2 : sxy g = 2 * sxx g := by
    apply mul_left_cancel₀ hcount
    have h1 := count_mul_sxy g hcount
    have h2 := count_mul_sxx g hcount
    rw [hY, hXY] at h1
    rw [h1]
    linear_combination (-2 : ℚ) * h2
  have hb1 : olsSlope g = 2 := by
    rw [hslope, hsxy2, mul_div_assoc, div_self hx, mul_one]
  have hb0 : olsIntercept g = 3 := by
    rw [hint, hb1]
    unfold meanY meanX
    rw [hY]
    field_simp
  have hres : ssRes g = 0 := by
    unfold ssRes
    rw [hb0, hb1]
    have hzero : (g.map fun p => (p.2 - (3 + 2 * p.1)) ^ 2) =
        g.map fun _ => (0 : ℚ) :=
      List.map_congr_left fun p hp => by rw [hlin p hp]; ring
    rw [hzero]
    simp
  refine ⟨hb1, hb0, ?_⟩
  unfold rSquared
  rw [hres]
  simp

/-- C7 witness: USA observations with x-values 0, 1, 2 joined against
y-values 3, 5, 7 (exactly y = 2x + 3); the fit returns slope 2, intercept 3
and R² = 1. -/
theorem c7_ols_closed_form_and_noiseless_witness :
    ([((0 : ℚ), (3 : ℚ)), (1, 5), (2, 7)] =
        groupFor (innerJoin
          [⟨"USA", 2020, 0⟩, ⟨"USA", 2021, 1⟩, ⟨"USA", 2022, 2⟩]
          [⟨"USA", 2020, 3⟩, ⟨"USA", 2021, 5⟩, ⟨"USA", 2022, 7⟩]) "USA" ∧
      3 ≤ ([((0 : ℚ), (3 : ℚ)), (1, 5), (2, 7)] : List (ℚ × ℚ)).length ∧
      sxx [((0 : ℚ), (3 : ℚ)), (1, 5), (2, 7)] ≠ 0) ∧
      (olsSlope [((0 : ℚ), (3 : ℚ)), (1, 5), (2, 7)] = 2 ∧
        olsIntercept [((0 : ℚ), (3 : ℚ)), (1, 5), (2, 7)] = 3 ∧
        rSquared [((0 : ℚ), (3 : ℚ)), (1, 5), (2, 7)] = 1) := by
  have hg : ([((0 : ℚ), (3 : ℚ)), (1, 5), (2, 7)] : List (ℚ × ℚ)) =
      groupFor (innerJoin
        [⟨"USA", 2020, 0⟩, ⟨"USA", 2021, 1⟩, ⟨"USA", 2022, 2⟩]
        [⟨"USA", 2020, 3⟩, ⟨"USA", 2021, 5⟩, ⟨"USA", 2022, 7⟩]) "USA" := by
    decide
  have hn : 3 ≤ ([((0 : ℚ), (3 : ℚ)), (1, 5), (2, 7)] : List (ℚ × ℚ)).length := by
    decide
  have hx : sxx [((0 : ℚ), (3 : ℚ)), (1, 5), (2, 7)] ≠ 0 := by
    norm_num [sxx, meanX, sumX, count]
  have hlin : ∀ p ∈ ([((0 : ℚ), (3 : ℚ)), (1, 5), (2, 7)] : List (ℚ × ℚ)),
      p.2 = 2 * p.1 + 3 := by
    intro p hp
    fin_cases hp <;> norm_num
  exact ⟨⟨hg, hn, hx⟩,
    (c7_ols_closed_form_and_noiseless
      [⟨"USA", 2020, 0⟩, ⟨"USA", 2021, 1⟩, ⟨"USA", 2022, 2⟩]
      [⟨"USA", 2020, 3⟩, ⟨"USA", 2021, 5⟩, ⟨"USA", 2022, 7⟩] "USA"
      [((0 : ℚ), (3 : ℚ)), (1, 5), (2, 7)] hg hn hx).2 hlin⟩

theorem filter_keyMatch_self :
    ∀ A : List Obs, (A.map fun o => (o.country, o.date)).Nodup →
      ∀ a ∈ A, A.filter (fun b => keyMatch a b) = [a] := by
  intro A
  induction A with
  | nil =>
    intro _ a ha
    exact absurd ha (List.not_mem_nil a)
  | cons q t ih =>
    intro hkeys a ha
    have hnotin : (q.country, q.date) ∉ t.map fun o => (o.country, o.date) := by
      rw [List.map_cons, List.nodup_cons] at hkeys
      exact hkeys.1
    have hnd : (t.map fun o => (o.country, o.date)).Nodup := by
      rw [List.map_cons, List.nodup_cons] at hkeys
      exact hkeys.2
    rcases List.mem_cons.mp ha with rfl | ha'
    · have hkc : keyMatch a a = true := by simp [keyMatch]
      rw [List.filter_cons, if_pos hkc]
      have hnil : t.filter (fun b => keyMatch a b) = [] := by
        apply List.filter_eq_nil_iff.mpr
        intro b hb hkb
        rcases (keyMatch_iff a b).mp hkb with ⟨hcc, hdd⟩
        exact hnotin (List.mem_map.mpr ⟨b, hb, by rw [← hcc, ← hdd]⟩)
      rw [hnil]
    · have hkc : keyMatch a q = false := by
        cases hb : keyMatch a q
        · rfl
        · exfalso
          rcases (keyMatch_iff a q).mp hb with ⟨hcc, hdd⟩
          exact hnotin (List.mem_map.mpr ⟨a, ha', by rw [hcc, hdd]⟩)
      rw [List.filter_cons, if_neg (by rw [hkc]; exact Bool.false_ne_true)]
      exact ih hnd a ha'

theorem flatMap_eq_map_of_singleton {α β : Type} (l : List α) (f : α → List β)
    (g : α → β) (h : ∀ a ∈ l, f a = [g a]) : l.flatMap f = l.map g := by
  induction l with
  | nil => rfl
  | cons a t ih =>
    rw [List.flatMap_cons, h a (List.mem_cons_self a t), List.map_cons,
      ih fun b hb => h b (List.mem_cons_of_mem a hb), List.singleton_append]

theorem innerJoin_self (A : List Obs)
    (hkeys : (A.map fun o => (o.country, o.date)).Nodup) :
    innerJoin A A = A.map fun a => mkJoined a a := by
  unfold innerJoin
  apply flatMap_eq_map_of_singleton
  intro a ha
  rw [filter_keyMatch_self A hkeys a ha]
  rfl

theorem pairs_selfJoin (A : List Obs)
    (hkeys : (A.map fun o => (o.country, o.date)).Nodup) (c : String) :
    ∀ p ∈ groupFor (innerJoin A A) c, p.1 = p.2 := by
  intro p hp
  rw [groupFor, innerJoin_self A hkeys] at hp
  rcases List.mem_map.mp hp with ⟨r, hr, rfl⟩
  rcases List.mem_filter.mp hr with ⟨hrj, _⟩
  rcases List.mem_map.mp hrj with ⟨a, _, rfl⟩
  rfl

theorem diag_sumY (l : List (ℚ × ℚ)) (h : ∀ p ∈ l, p.1 = p.2) :
    sumY l = sumX l := by
  unfold sumY sumX
  exact congrArg List.sum (List.map_congr_left fun p hp => (h p hp).symm)

theorem diag_meanY (l : List (ℚ × ℚ)) (h : ∀ p ∈ l, p.1 = p.2) :
    meanY l = meanX l := by
  unfold meanY meanX
  rw [diag_sumY l h]

theorem diag_syy (l : List (ℚ × ℚ)) (h : ∀ p ∈ l, p.1 = p.2) :
    syy l = sxx l := by
  unfold syy sxx
  apply congrArg List.sum
  apply List.map_congr_left
  intro p hp
  rw [← h p hp, diag_meanY l h]

theorem diag_sxy (l : List (ℚ × ℚ)) (h : ∀ p ∈ l, p.1 = p.2) :
    sxy l = sxx l := by
  unfold sxy sxx
  apply congrArg List.sum
  apply List.map_congr_left
  intro p hp
  rw [← h p hp, diag_meanY l h]
  ring

/-- C8: correlating an aligned series with itself (the series satisfying the
no-duplicate-`(entity, date)` invariant) yields coefficient 1 for every
country whose group has at least two joined points and nonzero variance. -/
theorem c8_self_correlation (A : List Obs) (c : String)
    (hkeys : (A.map fun o => (o.country, o.date)).Nodup)
    (h2 : 2 ≤ (groupFor (innerJoin A A) c).length)
    (hvar : sxx (groupFor (innerJoin A A) c) ≠ 0) :
    correlate A A c = 1 := by
  have hdiag := pairs_selfJoin A hkeys c
  have hpos : 0 < sxx (groupFor (innerJoin A A) c) :=
    lt_of_le_of_ne (sxx_nonneg _) (Ne.symm hvar)
  have hR : (0 : ℝ) < ((sxx (groupFor (innerJoin A A) c) : ℚ) : ℝ) := by
    exact_mod_cast hpos
  rw [correlate, pearson, diag_sxy _ hdiag, diag_syy _ hdiag,
    Real.mul_self_sqrt hR.le]
  exact div_self (ne_of_gt hR)

/-- C8 witness: a two-point USA series correlated with itself has
coefficient exactly 1. -/
theorem c8_self_correlation_witness :
    (([⟨"USA", 2020, 0⟩, ⟨"USA", 2021, 1⟩] :
          List Obs).map (fun o => (o.country, o.date))).Nodup ∧
      2 ≤ (groupFor (innerJoin [⟨"USA", 2020, 0⟩, ⟨"USA", 2021, 1⟩]
        [⟨"USA", 2020, 0⟩, ⟨"USA", 2021, 1⟩]) "USA").length ∧
      sxx (groupFor (innerJoin [⟨"USA", 2020, 0⟩, ⟨"USA", 2021, 1⟩]
        [⟨"USA", 2020, 0⟩, ⟨"USA", 2021, 1⟩]) "USA") ≠ 0 ∧
      correlate [⟨"USA", 2020, 0⟩, ⟨"USA", 2021, 1⟩]
        [⟨"USA", 2020, 0⟩, ⟨"USA", 2021, 1⟩] "USA" = 1 := by
  have hg : groupFor (innerJoin [⟨"USA", 2020, 0⟩, ⟨"USA", 2021, 1⟩]
      [⟨"USA", 2020, 0⟩, ⟨"USA", 2021, 1⟩]) "USA" = [(0, 0), (1, 1)] := by
    decide
  have hkeys : (([⟨"USA", 2020, 0⟩, ⟨"USA", 2021, 1⟩] :
      List Obs).map (fun o => (o.country, o.date))).Nodup := by decide
  have h2 : 2 ≤ (groupFor (innerJoin [⟨"USA", 2020, 0⟩, ⟨"USA", 2021, 1⟩]
      [⟨"USA", 2020, 0⟩, ⟨"USA", 2021, 1⟩]) "USA").length := by
    rw [hg]
    decide
  have hvar : sxx (groupFor (innerJoin [⟨"USA", 2020, 0⟩, ⟨"USA", 2021, 1⟩]
      [⟨"USA", 2020, 0⟩, ⟨"USA", 2021, 1⟩]) "USA") ≠ 0 := by
    rw [hg]
    norm_num [sxx, meanX, sumX, count]
  exact ⟨hkeys, h2, hvar,
    c8_self_correlation [⟨"USA", 2020, 0⟩, ⟨"USA", 2021, 1⟩] "USA" hkeys h2 hvar⟩

theorem keyMatch_comm (a b : Obs) : keyMatch a b = keyMatch b a := by
  rw [Bool.eq_iff_iff, keyMatch_iff, keyMatch_iff]
  constructor
  · rintro ⟨hc, hd⟩
    exact ⟨hc.symm, hd.symm⟩
  · rintro ⟨hc, hd⟩
    exact ⟨hc.symm, hd.symm⟩

theorem flatMap_congr {α β : Type} (l : List α) (f g : α → List β)
    (h : ∀ a ∈ l, f a = g a) : l.flatMap f = l.flatMap g := by
  induction l with
  | nil => rfl
  | cons a t ih =>
    rw [List.flatMap_cons, List.flatMap_cons, h a (List.mem_cons_self a t),
      ih fun b hb => h b (List.mem_cons_of_mem a hb)]

theorem flatMap_append_perm {α β : Type} (l : List α) (f g : α → List β) :
    (l.flatMap fun x => f x ++ g x).Perm (l.flatMap f ++ l.flatMap g) := by
  induction l with
  | nil => simp
  | cons a t ih =>
    simp only [List.flatMap_cons]
    refine (ih.append_left (f a ++ g a)).trans ?_
    rw [List.append_assoc, List.append_assoc]
    apply List.Perm.append_left
    rw [← List.append_assoc, ← List.append_assoc]
    exact List.perm_append_comm.append_right _

theorem flatMap_if_singleton {α β : Type} (l : List α) (p : α → Bool)
    (h : α → β) :
    (l.flatMap fun x => if p x then [h x] else []) = (l.filter p).map h := by
  induction l with
  | nil => rfl
  | cons a t ih =>
    rw [List.flatMap_cons, List.filter_cons]
    by_cases hp : p a = true
    · rw [if_pos hp, if_pos hp, List.map_cons, ih, List.singleton_append]
    · rw [if_neg hp, if_neg hp, ih, List.nil_append]

theorem innerJoin_swap_perm :
    ∀ A B : List Obs, (innerJoin B A).Perm ((innerJoin A B).map flipJoined) := by
  intro A
  induction A with
  | nil =>
    intro B
    have h1 : innerJoin B ([] : List Obs) = [] := by simp [innerJoin]
    rw [h1]
    exact List.Perm.refl _
  | cons a t ih =>
    intro B
    have hsplit : ∀ b : Obs,
        ((a :: t).filter fun x => keyMatch b x).map (fun x => mkJoined b x) =
          (if keyMatch b a then [mkJoined b a] else []) ++
            ((t.filter fun x => keyMatch b x).map fun x => mkJoined b x) := by
      intro b
      rw [List.filter_cons]
      by_cases hp : keyMatch b a = true
      · rw [if_pos hp, if_pos hp, List.map_cons, List.singleton_append]
      · rw [if_neg hp, if_neg hp, List.nil_append]
    have h1 : innerJoin B (a :: t) = B.flatMap fun b =>
        (if keyMatch b a then [mkJoined b a] else []) ++
          ((t.filter fun x => keyMatch b x).map fun x => mkJoined b x) := by
      unfold innerJoin
      exact flatMap_congr B _ _ fun b _ => hsplit b
    have step1 : (innerJoin B (a :: t)).Perm
        (((B.filter fun b => keyMatch b a).map fun b => mkJoined b a) ++
          innerJoin B t) := by
      rw [h1]
      have hp := flatMap_append_perm B
        (fun b => if keyMatch b a then [mkJoined b a] else [])
        (fun b => (t.filter fun x => keyMatch b x).map fun x => mkJoined b x)
      rw [flatMap_if_singleton B _ _] at hp
      exact hp
    have hhead : ((B.filter fun b => keyMatch b a).map fun b => mkJoined b a) =
        ((B.filter fun b => keyMatch a b).map fun b =>
          flipJoined (mkJoined a b)) := by
      rw [List.filter_congr fun b _ => keyMatch_comm b a]
      apply List.map_congr_left
      intro b hb
      rcases List.mem_filter.mp hb with ⟨_, hk⟩
      rcases (keyMatch_iff a b).mp hk with ⟨hcc, hdd⟩
      unfold mkJoined flipJoined
      rw [← hcc, ← hdd]
    have hR : (innerJoin (a :: t) B).map flipJoined =
        ((B.filter fun b => keyMatch a b).map fun b =>
          flipJoined (mkJoined a b)) ++ (innerJoin t B).map flipJoined := by
      unfold innerJoin
      rw [List.flatMap_cons, List.map_append, List.map_map]
      rfl
    refine step1.trans ?_
    rw [hR, ← hhead]
    exact (ih B).append_left _

theorem groupFor_swap_perm (A B : List Obs) (c : String) :
    (groupFor (innerJoin B A) c).Perm
      ((groupFor (innerJoin A B) c).map Prod.swap) := by
  have h := innerJoin_swap_perm A B
  unfold groupFor
  have h2 := (h.filter fun r => r.country == c).map fun r => (r.x, r.y)
  refine h2.trans ?_
  have hcomm : (((innerJoin A B).map flipJoined).filter fun r =>
      r.country == c) =
      ((innerJoin A B).filter fun r => r.country == c).map flipJoined := by
    rw [List.filter_map]
    exact congrArg _ (List.filter_congr fun r _ => rfl)
  rw [hcomm, List.map_map, List.map_map]
  exact List.Perm.refl _

theorem swap_sumX (l₁ l₂ : List (ℚ × ℚ)) (h : l₁.Perm (l₂.map Prod.swap)) :
    sumX l₁ = sumY l₂ := by
  have h1 := (h.map fun p => p.1).sum_eq
  rw [List.map_map] at h1
  exact h1

theorem swap_sumY (l₁ l₂ : List (ℚ × ℚ)) (h : l₁.Perm (l₂.map Prod.swap)) :
    sumY l₁ = sumX l₂ := by
  have h1 := (h.map fun p => p.2).sum_eq
  rw [List.map_map] at h1
  exact h1

theorem swap_count (l₁ l₂ : List (ℚ × ℚ)) (h : l₁.Perm (l₂.map Prod.swap)) :
    count l₁ = count l₂ := by
  have h1 := h.length_eq
  rw [List.length_map] at h1
  unfold count
  rw [h1]

theorem swap_meanX (l₁ l₂ : List (ℚ × ℚ)) (h : l₁.Perm (l₂.map Prod.swap)) :
    meanX l₁ = meanY l₂ := by
  unfold meanX meanY
  rw [swap_sumX l₁ l₂ h, swap_count l₁ l₂ h]

theorem swap_meanY (l₁ l₂ : List (ℚ × ℚ)) (h : l₁.Perm (l₂.map Prod.swap)) :
    meanY l₁ = meanX l₂ := by
  unfold meanY meanX
  rw [swap_sumY l₁ l₂ h, swap_count l₁ l₂ h]

theorem swap_sxx (l₁ l₂ : List (ℚ × ℚ)) (h : l₁.Perm (l₂.map Prod.swap)) :
    sxx l₁ = syy l₂ := by
  unfold sxx syy
  have h1 := (h.map fun p => (p.1 - meanX l₁) ^ 2).sum_eq
  rw [List.map_map] at h1
  rw [h1]
  apply congrArg List.sum
  apply List.map_congr_left
  intro p _
  show (p.2 - meanX l₁) ^ 2 = (p.2 - meanY l₂) ^ 2
  rw [swap_meanX l₁ l₂ h]

theorem swap_syy (l₁ l₂ : List (ℚ × ℚ)) (h : l₁.Perm (l₂.map Prod.swap)) :
    syy l₁ = sxx l₂ := by
  unfold syy sxx
  have h1 := (h.map fun p => (p.2 - meanY l₁) ^ 2).sum_eq
  rw [List.map_map] at h1
  rw [h1]
  apply congrArg List.sum
  apply List.map_congr_left
  intro p _
  show (p.1 - meanY l₁) ^ 2 = (p.1 - meanX l₂) ^ 2
  rw [swap_meanY l₁ l₂ h]

theorem swap_sxy (l₁ l₂ : List (ℚ × ℚ)) (h : l₁.Perm (l₂.map Prod.swap)) :
    sxy l₁ = sxy l₂ := by
  unfold sxy
  have h1 := (h.map fun p => (p.1 - meanX l₁) * (p.2 - meanY l₁)).sum_eq
  rw [List.map_map] at h1
  rw [h1]
  apply congrArg List.sum
  apply List.map_congr_left
  intro p _
  show (p.2 - meanX l₁) * (p.1 - meanY l₁) =
    (p.1 - meanX l₂) * (p.2 - meanY l₂)
  rw [swap_meanX l₁ l₂ h, swap_meanY l₁ l₂ h]
  ring

theorem pearson_swap (l₁ l₂ : List (ℚ × ℚ)) (h : l₁.Perm (l₂.map Prod.swap)) :
    pearson l₁ = pearson l₂ := by
  unfold pearson
  rw [swap_sxy l₁ l₂ h, swap_sxx l₁ l₂ h, swap_syy l₁ l₂ h, mul_comm]

theorem mem_correlationsIndex (j : List JoinedRecord) (c : String) :
    c ∈ correlationsIndex j ↔ ∃ r ∈ j, r.country = c := by
  unfold correlationsIndex
  rw [List.mem_dedup, List.mem_map]

/-- C9: correlating in either order gives the same coefficient for every
country (the Pearson formula is symmetric in the two value columns), and the
two joined frames contain exactly the same set of countries. -/
theorem c9_correlate_symmetric (A B : List Obs) :
    (∀ c : String, correlate A B c = correlate B A c) ∧
      ∀ c : String, c ∈ correlationsIndex (innerJoin A B) ↔
        c ∈ correlationsIndex (innerJoin B A) := by
  constructor
  · intro c
    exact (pearson_swap _ _ (groupFor_swap_perm A B c)).symm
  · intro c
    constructor
    · intro hc
      rcases (mem_correlationsIndex _ c).mp hc with ⟨r, hr, hrc⟩
      refine (mem_correlationsIndex _ c).mpr ⟨flipJoined r, ?_, hrc⟩
      exact (innerJoin_swap_perm A B).mem_iff.mpr
        (List.mem_map.mpr ⟨r, hr, rfl⟩)
    · intro hc
      rcases (mem_correlationsIndex _ c).mp hc with ⟨r, hr, hrc⟩
      refine (mem_correlationsIndex _ c).mpr ⟨flipJoined r, ?_, hrc⟩
      exact (innerJoin_swap_perm B A).mem_iff.mpr
        (List.mem_map.mpr ⟨r, hr, rfl⟩)

/-- C1 (code bug): with the spec's own example — USA has two joined records,
China is selected but has zero joined records because the trade-balance
fetch returned nothing for it — the display loop of lines 239-243 hits
`correlations.loc["China"]` on a label missing from the groupby index and
the whole page crashes with a `KeyError`; no `CorrelationResult` with an
undefined marker is produced for China, contrary to the claim. -/
theorem c1_missing_entity_keyerror :
    displayCorrelations
        (innerJoin
          [⟨"USA", 2020, 1⟩, ⟨"USA", 2021, 2⟩, ⟨"China", 2020, 3⟩]
          [⟨"USA", 2020, 5⟩, ⟨"USA", 2021, 7⟩])
        ["USA", "China"] = Except.error PdKeyError.keyError := by
  rfl

/-- C4 (code bug): for a country whose joined group has only two records
(`n = 2 < 3`), lines 274-284 run `sm.OLS(...).fit()` unconditionally and
produce a fitted slope and intercept (here slope 1, intercept 0) instead of
an explicit insufficient-data marker; no sample-size or variance guard
exists anywhere in the regression loop. -/
theorem c4_fit_attempted_below_min_n :
    (groupFor (innerJoin [⟨"USA", 2020, 0⟩, ⟨"USA", 2021, 1⟩]
        [⟨"USA", 2020, 0⟩, ⟨"USA", 2021, 1⟩]) "USA").length = 2 ∧
      olsFit (groupFor (innerJoin [⟨"USA", 2020, 0⟩, ⟨"USA", 2021, 1⟩]
        [⟨"USA", 2020, 0⟩, ⟨"USA", 2021, 1⟩]) "USA") = (1, 0) := by
  have hg : groupFor (innerJoin [⟨"USA", 2020, 0⟩, ⟨"USA", 2021, 1⟩]
      [⟨"USA", 2020, 0⟩, ⟨"USA", 2021, 1⟩]) "USA" = [(0, 0), (1, 1)] := by
    decide
  constructor
  · rw [hg]
    rfl
  · rw [hg]
    show (olsSlope [(0, 0), (1, 1)], olsIntercept [(0, 0), (1, 1)]) = (1, 0)
    norm_num [olsSlope, olsIntercept, count, sumXY, sumX, sumY, sumXX]

end GdpTradeBalance
